import Mathlib

/-!
# LinacTuning: `tmva/regression_2dscan_tor.C`

A shallow embedding of the TMVA driver script `regression_2dscan_tor.C`
(functions `regression_test` and `main`) and proofs about its method selection,
its error paths and the order of the library calls it issues.

Modelling conventions

* `std::string` / `TString` values are Lean `String`s.  `std::less<std::string>`
  compares bytes; on UTF-8 text that is the lexicographic order of the code
  points, which is what `strLess` computes.
* `std::map<std::string,int>` is the list of its entries in ascending key order
  (`UseMap`), with `lowerBound`, `find`, `assign` (`m[k] = v`) and `index`
  (`m[k]` read) following the container's semantics.
* Calls into ROOT/TMVA are recorded, in program order, as `Event`s of a trace;
  every library call is assumed to return.  What the library answers
  (`SplitString`, `AccessPathName`, `TFile::Open` of the input, `GetName`,
  `IsBatch`) is a parameter, `World`.
* `exit(1)` ends the run with `Status.exited 1`.
-/

namespace LinacTuning

/-! ## Strings and the `Use` table -/

/-- Lexicographic "less than" on sequences of character codes
(`std::char_traits<char>::compare`, then the shorter string first). -/
def lexLess : List Nat → List Nat → Bool
  | _, [] => false
  | [], _ :: _ => true
  | a :: as, b :: bs =>
    if a < b then true else if b < a then false else lexLess as bs

/-- The key comparison of `std::map<std::string,int>`: `std::less<std::string>`. -/
def strLess (a b : String) : Bool :=
  lexLess (a.data.map Char.toNat) (b.data.map Char.toNat)

/-- The table `std::map<std::string,int> Use`: its entries in iteration order. -/
abbrev UseMap := List (String × Int)

namespace UseMap

/-- The method `lower_bound(k)`: the entries from the first one whose key is not less than `k`. -/
def lowerBound (k : String) : UseMap → UseMap
  | [] => []
  | e :: rest => if strLess e.1 k then lowerBound k rest else e :: rest

/-- The method `find(k)`: `none` stands for `end()`, `some v` for an iterator to `(k, v)`. -/
def find (k : String) (m : UseMap) : Option Int :=
  match lowerBound k m with
  | [] => none
  | e :: _ => if strLess k e.1 then none else some e.2

/-- The statement `m[k] = v`: the entry with key `k` is created in key order when
absent, and its value becomes `v`. -/
def assign (k : String) (v : Int) : UseMap → UseMap
  | [] => [(k, v)]
  | e :: rest =>
    if strLess e.1 k then e :: assign k v rest
    else if strLess k e.1 then (k, v) :: e :: rest
    else (e.1, v) :: rest

/-- The expression `m[k]` read as a value: an absent key is first created with value `0`. -/
def index (k : String) (m : UseMap) : Int × UseMap :=
  match find k m with
  | some v => (v, m)
  | none => (0, assign k 0 m)

/-- The keys in iteration order (`it->first`). -/
def keys (m : UseMap) : List String := m.map Prod.fst

/-- The loop `for (it = Use.begin(); it != Use.end(); it++) it->second = 0;`. -/
def zeroAll (m : UseMap) : UseMap := m.map (fun it => (it.1, 0))

end UseMap

/-- Lines 46-67 of the source: the hardcoded table of default flags, built by
the eight assignments in source order. -/
def defaultUse : UseMap :=
  let Use : UseMap := []
  let Use := Use.assign "PDERS" 0
  let Use := Use.assign "PDEFoam" 0
  let Use := Use.assign "KNN" 0
  let Use := Use.assign "LD" 0
  let Use := Use.assign "MLP" 1
  let Use := Use.assign "DNN_CPU" 0
  let Use := Use.assign "BDT" 0
  let Use := Use.assign "BDTG" 0
  Use

/-- The eight method names the table is built from, in source order. -/
def knownNames : List String :=
  ["PDERS", "PDEFoam", "KNN", "LD", "MLP", "DNN_CPU", "BDT", "BDTG"]

/-! ## The library calls and the outside world -/

/-- The values of `TMVA::Types::EMVA` the script passes to `BookMethod`. -/
inductive EMVA
  | kPDERS | kPDEFoam | kKNN | kLD | kMLP | kDL | kBDT
  deriving DecidableEq, Repr

/-- One observable action of the script, in the order the source performs them. -/
inductive Event
  /-- The call `TMVA::Tools::Instance()`. -/
  | toolsInstance
  /-- One output statement on `std::cout`, with the text it writes. -/
  | cout (text : String)
  /-- The call `TFile::Open(name, option)`; the option is empty for a plain read. -/
  | tfileOpen (name option : String)
  /-- The call `new TMVA::Factory(jobName, outputFile, options)`. -/
  | newFactory (jobName options : String)
  /-- The call `new TMVA::DataLoader(name)`. -/
  | newDataLoader (name : String)
  /-- The call `dataloader->AddVariable(expression, title, units, type)`. -/
  | addVariable (expression title units : String) (type : Char)
  /-- The call `dataloader->AddSpectator(expression, title, units, type)`. -/
  | addSpectator (expression title units : String) (type : Char)
  /-- The call `dataloader->AddTarget(expression, title, units, type)`. -/
  | addTarget (expression title units : String) (type : Char)
  /-- The call `gSystem->AccessPathName(path)`. -/
  | accessPathName (path : String)
  /-- The call `input->Get(name)`. -/
  | getObject (name : String)
  /-- The call `dataloader->AddRegressionTree(regTree, regWeight)`, with `regWeight` the constant `1.0`. -/
  | addRegressionTree
  /-- The call `dataloader->PrepareTrainingAndTestTree(cut, options)`. -/
  | prepareTrainingAndTestTree (cut options : String)
  /-- The call `factory->BookMethod(dataloader, type, title, options)`. -/
  | bookMethod (type : EMVA) (title options : String)
  /-- The call `factory->TrainAllMethods()`. -/
  | trainAllMethods
  /-- The call `factory->TestAllMethods()`. -/
  | testAllMethods
  /-- The call `factory->EvaluateAllMethods()`. -/
  | evaluateAllMethods
  /-- The call `outputFile->Close()`. -/
  | closeOutput
  /-- The statement `delete factory`. -/
  | deleteFactory
  /-- The statement `delete dataloader`. -/
  | deleteDataLoader
  /-- The call `TMVA::TMVARegGui(fName)`. -/
  | regGui (fName : String)
  deriving DecidableEq, Repr

/-- What ROOT and TMVA answer to the script's queries. -/
structure World where
  /-- The result of `gTools().SplitString(theOpt, separator)`. -/
  SplitString : String → Char → List String
  /-- The result of `gSystem->AccessPathName(path)`: `true` when the path can NOT be accessed. -/
  AccessPathName : String → Bool
  /-- The result of `TFile::Open(path)` for reading: `none` for a null pointer, else the
  file's `GetName()`. -/
  OpenInput : String → Option String
  /-- The result of `outputFile->GetName()` for the output file opened under the given name. -/
  OutputName : String → String
  /-- The result of `gROOT->IsBatch()`. -/
  IsBatch : Bool

/-- How a run of `regression_test` ends: by returning to its caller or through `exit(code)`. -/
inductive Status
  | returned
  | exited (code : Int)
  deriving DecidableEq, Repr

/-- A finished run: the actions performed, in order, and how it ended. -/
structure Run where
  trace : List Event
  status : Status
  deriving DecidableEq, Repr

/-! ## `regression_test` -/

/-- Line 83: `for (it = Use.begin(); it != Use.end(); it++) std::cout << it->first << " ";`. -/
def printKnown (Use : UseMap) : List Event :=
  Use.map (fun it => Event.cout (it.1 ++ " "))

/-- Lines 82-84: what is printed when `regMethod` is not a key of `Use`. -/
def unknownMessage (Use : UseMap) (regMethod : String) : List Event :=
  [Event.cout ("Method \"" ++ regMethod ++
      "\" not known in TMVA under this name. Choose among the following:\n")]
    ++ printKnown Use ++ [Event.cout "\n"]

/-- Lines 78-88: the loop over `mlist`.  `Except.error out` is the early `return`
of line 85 after printing `out`; `Except.ok Use` is the table at loop exit. -/
def selectLoop (Use : UseMap) : List String → Except (List Event) UseMap
  | [] => Except.ok Use
  | regMethod :: rest =>
    if (Use.find regMethod).isNone then
      Except.error (unknownMessage Use regMethod)
    else
      selectLoop (Use.assign regMethod 1) rest

/-- Lines 74-89: the selection block, run on a table `Use`. -/
def selectMethods (w : World) (Use : UseMap) (myMethodList : String) :
    Except (List Event) UseMap :=
  if myMethodList ≠ "" then
    selectLoop Use.zeroAll (w.SplitString myMethodList ',')
  else
    Except.ok Use

/-- One statement `if (Use[key]) factory->BookMethod(dataloader, type, title, options);`. -/
structure Booking where
  key : String
  type : EMVA
  title : String
  options : String
  deriving DecidableEq, Repr

/-- Lines 203-214: the option string assembled for the `DNN_CPU` method. -/
def nnOptions : String :=
  let layoutString := "Layout=TANH|50,TANH|50,TANH|50,LINEAR"
  let trainingStrategyString := "TrainingStrategy="
  let trainingStrategyString := trainingStrategyString ++
    "LearningRate=1e-3,Momentum=0.3,ConvergenceSteps=20,BatchSize=10,TestRepetitions=1,WeightDecay=0.0,Regularization=None,Optimizer=Adam"
  let nnOptions := "!H:V:ErrorStrategy=SUMOFSQUARES:VarTransform=G:WeightInitialization=XAVIERUNIFORM:Architecture=CPU"
  let nnOptions := nnOptions ++ ":"
  let nnOptions := nnOptions ++ layoutString
  let nnOptions := nnOptions ++ ":"
  let nnOptions := nnOptions ++ trainingStrategyString
  nnOptions

/-- Lines 175-227: the eight conditional `BookMethod` statements, in source order. -/
def bookings : List Booking :=
  [ ⟨"PDERS", EMVA.kPDERS, "PDERS",
      "!H:!V:NormTree=T:VolumeRangeMode=Adaptive:KernelEstimator=Gauss:GaussSigma=0.3:NEventsMin=40:NEventsMax=60:VarTransform=None"⟩,
    ⟨"PDEFoam", EMVA.kPDEFoam, "PDEFoam",
      "!H:!V:MultiTargetRegression=F:TargetSelection=Mpv:TailCut=0.001:VolFrac=0.0666:nActiveCells=500:nSampl=2000:nBin=5:Compress=T:Kernel=None:Nmin=10:VarTransform=None"⟩,
    ⟨"KNN", EMVA.kKNN, "KNN",
      "nkNN=20:ScaleFrac=0.8:SigmaFact=1.0:Kernel=Gaus:UseKernel=F:UseWeight=T:!Trim"⟩,
    ⟨"LD", EMVA.kLD, "LD", "!H:!V:VarTransform=None"⟩,
    ⟨"MLP", EMVA.kMLP, "MLP",
      "!H:!V:VarTransform=Norm:NeuronType=tanh:NCycles=1000:HiddenLayers=N+10:TestRate=6:TrainingMethod=BFGS:Sampling=0.3:SamplingEpoch=0.8:ConvergenceImprove=1e-6:ConvergenceTests=15:!UseRegulator"⟩,
    ⟨"DNN_CPU", EMVA.kDL, "DNN_CPU", nnOptions⟩,
    ⟨"BDT", EMVA.kBDT, "BDT",
      "!H:!V:NTrees=100:MinNodeSize=1.0%:BoostType=AdaBoostR2:SeparationType=RegressionVariance:nCuts=20:PruneMethod=CostComplexity:PruneStrength=30"⟩,
    ⟨"BDTG", EMVA.kBDT, "BDTG",
      "!H:!V:NTrees=2000::BoostType=Grad:Shrinkage=0.1:UseBaggedBoost:BaggedSampleFraction=0.5:nCuts=20:MaxDepth=3:MaxDepth=4"⟩ ]

/-- The call a booking statement makes when its flag is non-zero. -/
def Booking.event (b : Booking) : Event :=
  Event.bookMethod b.type b.title b.options

/-- Running a sequence of booking statements on the table `Use`: each reads
`Use[key]` and books its method when the flag is non-zero. -/
def bookMethods : UseMap → List Booking → List Event
  | _, [] => []
  | Use, b :: rest =>
    let r := Use.index b.key
    if r.1 ≠ 0 then b.event :: bookMethods r.2 rest
    else bookMethods r.2 rest

/-- Lines 42 and 70-71: what every run starts with. -/
def startEvents : List Event :=
  [Event.toolsInstance, Event.cout "\n", Event.cout "==> Start TMVARegression\n"]

/-- Lines 96-139: the output file, the factory, the data loader and the fields it is told about. -/
def prepareEvents (outfileName : String) : List Event :=
  [ Event.tfileOpen outfileName "RECREATE",
    Event.newFactory "TMVARegression" "!V:!Silent:Color:DrawProgressBar:AnalysisType=Regression",
    Event.newDataLoader "dataset",
    Event.addVariable "RFQPAH_R" "RFQ phase" "degrees" 'D',
    Event.addVariable "RFBPAH_R" "buncher phase" "degrees" 'D',
    Event.addSpectator "RFQPAH_S" "RFQ phase Set" "degrees" 'D',
    Event.addSpectator "RFBPAH_S" "buncher phase Set" "degrees" 'D',
    Event.addTarget "TO1IN_R" "to1in" "mA" 'D',
    Event.addTarget "D7TOR_R" "d7tor" "mA" 'D',
    Event.addTarget "TO3IN_R" "to3in" "mA" 'D' ]

/-- The input file name of line 144. -/
def fname : String := "./rfq_b.root"

/-- Lines 143-147: the value of the pointer `input` (`none` for null) and the calls made
to obtain it. -/
def openInput (w : World) : Option String × List Event :=
  if !w.AccessPathName fname then
    (w.OpenInput fname, [Event.accessPathName fname, Event.tfileOpen fname ""])
  else
    (none, [Event.accessPathName fname])

/-- Lines 152-170: after the input file is open. -/
def loadEvents (inputName : String) : List Event :=
  [ Event.cout ("--- TMVARegression           : Using input file: " ++ inputName ++ "\n"),
    Event.getObject "paramT",
    Event.addRegressionTree,
    Event.prepareTrainingAndTestTree ""
      "nTrain_Regression=250:nTest_Regression=0:SplitMode=Random:NormMode=NumEvents:!V" ]

/-- Lines 233-253: train, test, evaluate, close, report, clean up and the optional GUI. -/
def finishEvents (w : World) (outfileName : String) : List Event :=
  [ Event.trainAllMethods,
    Event.testAllMethods,
    Event.evaluateAllMethods,
    Event.closeOutput,
    Event.cout ("==> Wrote root file: " ++ w.OutputName outfileName ++ "\n"),
    Event.cout "==> TMVARegression is done!\n",
    Event.deleteFactory,
    Event.deleteDataLoader ]
    ++ (if !w.IsBatch then [Event.regGui outfileName] else [])

/-- The function `regression_test(myMethodList, outfileName)` of lines 29-254. -/
def regression_test (w : World) (myMethodList : String)
    (outfileName : String := "TMVAReg_outtest.root") : Run :=
  match selectMethods w defaultUse myMethodList with
  | Except.error out => ⟨startEvents ++ out, Status.returned⟩
  | Except.ok Use =>
    let input := openInput w
    match input.1 with
    | none =>
      ⟨startEvents ++ prepareEvents outfileName ++ input.2
          ++ [Event.cout "ERROR: could not open data file\n"], Status.exited 1⟩
    | some inputName =>
      ⟨startEvents ++ prepareEvents outfileName ++ input.2 ++ loadEvents inputName
          ++ bookMethods Use bookings ++ finishEvents w outfileName, Status.returned⟩

/-! ## `main` -/

/-- Lines 260-265: the loop over `argv[1..argc)`, started with the current `methodList`. -/
def buildMethodList (methodList : String) : List String → String
  | [] => methodList
  | regMethod :: rest =>
    if regMethod = "-b" ∨ regMethod = "--batch" then buildMethodList methodList rest
    else
      let methodList := if methodList ≠ "" then methodList ++ "," else methodList
      buildMethodList (methodList ++ regMethod) rest

/-- The string `main` passes to `regression_test`; `argv[0]` is skipped (the loop starts at 1). -/
def methodListOf (argv : List String) : String :=
  buildMethodList "" (argv.drop 1)

/-- The function `main(argc, argv)` of lines 256-268, with `argv` the list of its `argc`
strings: the run of `regression_test` and the exit status of the process. -/
def main (w : World) (argv : List String) : Run × Int :=
  let r := regression_test w (methodListOf argv)
  match r.status with
  | Status.exited code => (r, code)
  | Status.returned => (r, 0)

/-! ## A concrete world for evaluating runs -/

/-- The pieces of a character sequence between separators, empty pieces dropped;
`cur` holds the current piece, reversed. -/
def splitPieces (separator : Char) : List Char → List Char → List String
  | cur, [] => if cur = [] then [] else [String.mk cur.reverse]
  | cur, c :: cs =>
    if c = separator then
      (if cur = [] then splitPieces separator [] cs
       else String.mk cur.reverse :: splitPieces separator [] cs)
    else splitPieces separator (c :: cur) cs

/-- Modelled from the spec: the "comma-separated list of method names" is split by
`gTools().SplitString`, a routine of the external TMVA library whose code is not part of this
repository.  As in TMVA, newlines count as blanks, and leading, trailing and repeated
separators produce no piece.  The theorems on `regression_test` hold for every splitter
(`World.SplitString`); this one serves to evaluate concrete runs. -/
def SplitString (theOpt : String) (separator : Char) : List String :=
  splitPieces separator [] (theOpt.data.map (fun c => if c = '\n' then ' ' else c))

/-- A world with TMVA's splitter in which the input file exists and opens, in batch mode. -/
def worldWithInput : World where
  SplitString := SplitString
  AccessPathName := fun _ => false
  OpenInput := fun path => some path
  OutputName := fun name => name
  IsBatch := true

/-- A world with TMVA's splitter in which `./rfq_b.root` does not exist. -/
def worldNoInput : World where
  SplitString := SplitString
  AccessPathName := fun _ => true
  OpenInput := fun _ => none
  OutputName := fun name => name
  IsBatch := true

/-! ## Observations on traces -/

/-- Whether an event opens a file in `RECREATE` mode (the script does so for the output file only). -/
def Event.isRecreate : Event → Bool
  | Event.tfileOpen _ option => option == "RECREATE"
  | _ => false

/-- Whether an event is a `BookMethod` call. -/
def Event.isBookMethod : Event → Bool
  | Event.bookMethod _ _ _ => true
  | _ => false

/-- The `BookMethod` calls of a trace, in order. -/
def bookCalls (t : List Event) : List Event :=
  t.filter Event.isBookMethod

/-- The calls that mark the phases of a run: opening the output file, booking, training,
testing, evaluating, closing the output file. -/
def Event.isMilestone : Event → Bool
  | Event.tfileOpen _ option => option == "RECREATE"
  | Event.bookMethod _ _ _ => true
  | Event.trainAllMethods => true
  | Event.testAllMethods => true
  | Event.evaluateAllMethods => true
  | Event.closeOutput => true
  | _ => false

/-- The phase-marking calls of a trace, in order. -/
def milestones (t : List Event) : List Event :=
  t.filter Event.isMilestone

/-- The role under which a field is registered with the data loader. -/
inductive Role
  | inputVariable | spectator | target
  deriving DecidableEq, Repr

/-- The field registered by an event, with its role, if the event registers one. -/
def Event.registration : Event → Option (Role × String)
  | Event.addVariable expression _ _ _ => some (Role.inputVariable, expression)
  | Event.addSpectator expression _ _ _ => some (Role.spectator, expression)
  | Event.addTarget expression _ _ _ => some (Role.target, expression)
  | _ => none

/-- The fields a trace registers with the data loader, in order, each with its role. -/
def registrations (t : List Event) : List (Role × String) :=
  t.filterMap Event.registration

/-- The text a trace writes to `std::cout`. -/
def stdout : List Event → String
  | [] => ""
  | Event.cout text :: rest => text ++ stdout rest
  | _ :: rest => stdout rest

/-- The test of line 262: the argument is `-b` or `--batch`. -/
def isBatchFlag (a : String) : Bool :=
  a == "-b" || a == "--batch"

/-- An argument vector without its `-b`/`--batch` arguments; `argv[0]` is kept. -/
def dropBatchFlags (argv : List String) : List String :=
  argv.take 1 ++ (argv.drop 1).filter (fun a => !isBatchFlag a)

/-- The input file is available: the path is accessible and `TFile::Open` returns a file. -/
def World.inputAvailable (w : World) : Bool :=
  !w.AccessPathName fname && (w.OpenInput fname).isSome

/-- The method list is empty or splits into known names only. -/
def World.validList (w : World) (myMethodList : String) : Bool :=
  myMethodList == "" || (w.SplitString myMethodList ',').all (fun n => decide (n ∈ knownNames))

/-- The first name of a list that is not one of the eight known names. -/
def firstUnknown (l : List String) : Option String :=
  l.find? (fun n => decide (n ∉ knownNames))

/-- The methods a valid method list enables: the names it lists, or `MLP` alone (the
hardcoded default) when it is empty. -/
def World.enabled (w : World) (myMethodList : String) (m : String) : Bool :=
  if myMethodList = "" then decide (m = "MLP")
  else decide (m ∈ w.SplitString myMethodList ',')

/-- The seven fields the script registers with the data loader, in source order. -/
def registeredFields : List (Role × String) :=
  [ (Role.inputVariable, "RFQPAH_R"), (Role.inputVariable, "RFBPAH_R"),
    (Role.spectator, "RFQPAH_S"), (Role.spectator, "RFBPAH_S"),
    (Role.target, "TO1IN_R"), (Role.target, "D7TOR_R"), (Role.target, "TO3IN_R") ]

/-- The five fields the specification lists for the table `paramT`. -/
def specFields : List String :=
  ["RFQPAH_R", "RFBPAH_R", "TO1IN_R", "D7TOR_R", "TO3IN_R"]

/-- The `BookMethod` call for the `MLP` method (line 199). -/
def bookMLP : Event :=
  Event.bookMethod EMVA.kMLP "MLP"
    "!H:!V:VarTransform=Norm:NeuronType=tanh:NCycles=1000:HiddenLayers=N+10:TestRate=6:TrainingMethod=BFGS:Sampling=0.3:SamplingEpoch=0.8:ConvergenceImprove=1e-6:ConvergenceTests=15:!UseRegulator"

/-! ## The key order -/

theorem lexLess_irrefl (l : List Nat) : lexLess l l = false := by
  induction l with
  | nil => rfl
  | cons a as ih => simp [lexLess, ih]

theorem lexLess_trans : ∀ (a b c : List Nat),
    lexLess a b = true → lexLess b c = true → lexLess a c = true
  | _, [], _ => by simp [lexLess]
  | _, _ :: _, [] => by simp [lexLess]
  | [], _ :: _, _ :: _ => by simp [lexLess]
  | x :: xs, y :: ys, z :: zs => by
    intro h1 h2
    simp only [lexLess] at h1 h2 ⊢
    by_cases hxy : x < y
    · by_cases hyz : y < z
      · have : x < z := by omega
        simp [this]
      · by_cases hzy : z < y
        · simp [hyz, hzy] at h2
        · have : x < z := by omega
          simp [this]
    · by_cases hyx : y < x
      · simp [hxy, hyx] at h1
      · have hxy2 : x = y := by omega
        subst hxy2
        simp only [hxy, if_false] at h1
        by_cases hxz : x < z
        · simp [hxz]
        · by_cases hzx : z < x
          · simp [hxz, hzx] at h2
          · simp only [hxz, hzx, if_false] at h2 ⊢
            exact lexLess_trans xs ys zs h1 h2

theorem lexLess_antisymm : ∀ (a b : List Nat),
    lexLess a b = false → lexLess b a = false → a = b
  | [], [] => by simp
  | [], _ :: _ => by simp [lexLess]
  | _ :: _, [] => by simp [lexLess]
  | x :: xs, y :: ys => by
    intro h1 h2
    simp only [lexLess] at h1 h2
    by_cases hxy : x < y
    · simp [hxy] at h1
    · by_cases hyx : y < x
      · simp [hyx] at h2
      · have hxy2 : x = y := by omega
        subst hxy2
        simp only [hxy, if_false] at h1 h2
        rw [lexLess_antisymm xs ys h1 h2]

theorem charToNat_injective : Function.Injective Char.toNat := by
  intro a b h
  apply Char.ext
  apply UInt32.ext
  exact h

theorem strLess_irrefl (a : String) : strLess a a = false :=
  lexLess_irrefl _

theorem strLess_trans {a b c : String} (h1 : strLess a b = true) (h2 : strLess b c = true) :
    strLess a c = true :=
  lexLess_trans _ _ _ h1 h2

/-- Keys that are equivalent under the map's order are equal strings. -/
theorem strLess_antisymm {a b : String} (h1 : strLess a b = false) (h2 : strLess b a = false) :
    a = b := by
  apply String.ext
  exact List.map_injective_iff.mpr charToNat_injective (lexLess_antisymm _ _ h1 h2)

theorem strLess_asymm {a b : String} (h : strLess a b = true) : strLess b a = false := by
  by_contra hc
  have hba : strLess b a = true := by simpa using hc
  have := strLess_trans h hba
  simp [strLess_irrefl] at this

/-! ## The `Use` table -/

namespace UseMap

@[simp] theorem find_nil (k : String) : find k [] = none := rfl

theorem find_cons (k : String) (e : String × Int) (rest : UseMap) :
    find k (e :: rest) =
      if strLess e.1 k then find k rest
      else if strLess k e.1 then none else some e.2 := by
  unfold find
  simp only [lowerBound]
  split_ifs <;> simp_all

theorem find_zeroAll (k : String) (m : UseMap) :
    find k (zeroAll m) = (find k m).map (fun _ => 0) := by
  induction m with
  | nil => rfl
  | cons e rest ih =>
    have hz : zeroAll (e :: rest) = (e.1, 0) :: zeroAll rest := rfl
    rw [hz, find_cons, find_cons, ih]
    split_ifs <;> simp

theorem keys_zeroAll (m : UseMap) : keys (zeroAll m) = keys m := by
  simp [keys, zeroAll, List.map_map, Function.comp_def]

theorem find_assign_self (k : String) (v : Int) (m : UseMap) :
    find k (assign k v m) = some v := by
  induction m with
  | nil => simp [assign, find_cons, strLess_irrefl]
  | cons e rest ih =>
    simp only [assign]
    split_ifs with h1 h2
    · rw [find_cons, if_pos h1, ih]
    · simp [find_cons, strLess_irrefl]
    · simp [find_cons, h1, h2]

theorem find_assign_ne {k n : String} (hne : n ≠ k) (v : Int) (m : UseMap) :
    find n (assign k v m) = find n m := by
  induction m with
  | nil =>
    simp only [assign, find_cons, find_nil]
    split_ifs with h1 h2
    · rfl
    · rfl
    · exact absurd (strLess_antisymm (by simpa using h2) (by simpa using h1)) hne
  | cons e rest ih =>
    simp only [assign]
    split_ifs with h1 h2
    · rw [find_cons, find_cons, ih]
    · rw [find_cons]
      split_ifs with h3 h4
      · rfl
      · have h5 : strLess n e.1 = true := strLess_trans h4 h2
        rw [find_cons, strLess_asymm h5, h5]
        simp
      · exact absurd (strLess_antisymm (by simpa using h4) (by simpa using h3)) hne
    · have hek : e.1 = k := strLess_antisymm (by simpa using h1) (by simpa using h2)
      rw [find_cons, find_cons]
      simp only [hek]
      split_ifs with h3 h4
      · rfl
      · rfl
      · exact absurd (strLess_antisymm (by simpa using h4) (by simpa using h3)) hne

theorem find_assign (k n : String) (v : Int) (m : UseMap) :
    find n (assign k v m) = if n = k then some v else find n m := by
  by_cases h : n = k
  · subst h; simp [find_assign_self]
  · simp [h, find_assign_ne h]

theorem keys_assign {k : String} {m : UseMap} (h : (find k m).isSome = true) (v : Int) :
    keys (assign k v m) = keys m := by
  induction m with
  | nil => simp at h
  | cons e rest ih =>
    rw [find_cons] at h
    simp only [assign]
    split_ifs with h1 h2
    · rw [if_pos h1] at h
      simp only [keys, List.map_cons] at ih ⊢
      rw [ih h]
    · simp [h1, h2] at h
    · rfl

theorem mem_keys_of_find {k : String} {m : UseMap} (h : (find k m).isSome = true) :
    k ∈ keys m := by
  induction m with
  | nil => simp at h
  | cons e rest ih =>
    rw [find_cons] at h
    split_ifs at h with h1 h2
    · simp only [keys, List.map_cons, List.mem_cons] at ih ⊢
      exact Or.inr (ih h)
    · simp at h
    · have : k = e.1 := strLess_antisymm (by simpa using h2) (by simpa using h1)
      simp [keys, this]

/-- Whether `find` succeeds depends on the keys only. -/
theorem find_isSome_congr (k : String) : ∀ (m m' : UseMap), keys m = keys m' →
    (find k m).isSome = (find k m').isSome
  | [], [] => fun _ => rfl
  | [], _ :: _ => fun h => by simp [keys] at h
  | _ :: _, [] => fun h => by simp [keys] at h
  | e :: rest, e' :: rest' => fun h => by
    simp only [keys, List.map_cons, List.cons.injEq] at h
    rw [find_cons, find_cons, ← h.1]
    have ih := find_isSome_congr k rest rest' h.2
    split_ifs <;> simp [ih]

theorem index_of_find {k : String} {m : UseMap} {v : Int} (h : find k m = some v) :
    index k m = (v, m) := by
  simp [index, h]

end UseMap

/-! ## The selection block -/

theorem defaultUse_eq : defaultUse =
    [("BDT", 0), ("BDTG", 0), ("DNN_CPU", 0), ("KNN", 0), ("LD", 0), ("MLP", 1),
      ("PDEFoam", 0), ("PDERS", 0)] := by
  decide

theorem defaultUse_keys : defaultUse.keys =
    ["BDT", "BDTG", "DNN_CPU", "KNN", "LD", "MLP", "PDEFoam", "PDERS"] := by
  decide

/-- A table with the keys of the source's table knows exactly the eight method names. -/
theorem find_isSome_iff_known {Use : UseMap} (hkeys : Use.keys = defaultUse.keys) (n : String) :
    (Use.find n).isSome = true ↔ n ∈ knownNames := by
  constructor
  · intro h
    have hm := UseMap.mem_keys_of_find h
    rw [hkeys, defaultUse_keys] at hm
    simp only [List.mem_cons, List.mem_singleton, List.not_mem_nil, or_false] at hm
    simp only [knownNames, List.mem_cons, List.mem_singleton, List.not_mem_nil, or_false]
    tauto
  · intro h
    rw [UseMap.find_isSome_congr n Use defaultUse hkeys]
    simp only [knownNames, List.mem_cons, List.mem_singleton, List.not_mem_nil, or_false] at h
    rcases h with h | h | h | h | h | h | h | h <;> subst h <;> decide

/-- The loop over known names only: it runs to its end, keeps the keys, and sets exactly the
listed names to 1. -/
theorem selectLoop_ok : ∀ (l : List String) (Use : UseMap),
    (∀ n ∈ l, (Use.find n).isSome = true) →
    ∃ Use', selectLoop Use l = Except.ok Use' ∧ Use'.keys = Use.keys ∧
      ∀ m, Use'.find m = if m ∈ l then some 1 else Use.find m
  | [], Use => fun _ => ⟨Use, rfl, rfl, fun m => by simp⟩
  | r :: rest, Use => fun h => by
    have hr : (Use.find r).isSome = true := h r (List.mem_cons_self _ _)
    have hrest : ∀ n ∈ rest, ((Use.assign r 1).find n).isSome = true := by
      intro n hn
      rw [UseMap.find_assign]
      split_ifs
      · rfl
      · exact h n (List.mem_cons_of_mem _ hn)
    obtain ⟨Use', h1, h2, h3⟩ := selectLoop_ok rest (Use.assign r 1) hrest
    refine ⟨Use', ?_, ?_, ?_⟩
    · simp only [selectLoop]
      have hn : ¬ (Use.find r).isNone = true := by
        cases hf : Use.find r <;> simp_all
      rw [if_neg hn]
      exact h1
    · rw [h2, UseMap.keys_assign hr]
    · intro m
      rw [h3, UseMap.find_assign]
      by_cases hm : m = r
      · subst hm; simp
      · by_cases hm2 : m ∈ rest <;> simp [hm, hm2]

theorem printKnown_eq (Use : UseMap) :
    printKnown Use = Use.keys.map (fun k => Event.cout (k ++ " ")) := by
  simp [printKnown, UseMap.keys, List.map_map, Function.comp_def]

/-- The loop over a list with an unknown name: it stops at the first one, and what it prints
depends on the keys of the table only. -/
theorem selectLoop_error : ∀ (l : List String) (Use : UseMap) (u : String),
    l.find? (fun n => (Use.find n).isNone) = some u →
    selectLoop Use l = Except.error
      ([Event.cout ("Method \"" ++ u ++
          "\" not known in TMVA under this name. Choose among the following:\n")]
        ++ Use.keys.map (fun k => Event.cout (k ++ " ")) ++ [Event.cout "\n"])
  | [], _, _ => fun h => by simp at h
  | r :: rest, Use, u => fun h => by
    rw [List.find?_cons] at h
    by_cases hr : (Use.find r).isNone = true
    · rw [hr] at h
      simp only [Option.some.injEq] at h
      subst h
      simp only [selectLoop, hr, if_true, unknownMessage, printKnown_eq]
    · have hr2 : (Use.find r).isSome = true := by
        cases hf : Use.find r <;> simp_all
      have hr3 : (Use.find r).isNone = false := by
        cases hf : Use.find r <;> simp_all
      rw [hr3] at h
      have hfun : (fun n => ((Use.assign r 1).find n).isNone) = (fun n => (Use.find n).isNone) := by
        funext n
        rw [UseMap.find_assign]
        split_ifs with hn
        · subst hn; simp [hr3]
        · rfl
      have ih := selectLoop_error rest (Use.assign r 1) u (by rw [hfun]; exact h)
      simp only [selectLoop]
      rw [if_neg hr, ih, UseMap.keys_assign hr2]

theorem firstUnknown_eq_find {Use : UseMap} (hkeys : Use.keys = defaultUse.keys)
    (l : List String) :
    l.find? (fun n => (Use.find n).isNone) = firstUnknown l := by
  unfold firstUnknown
  congr 1
  funext n
  have h := find_isSome_iff_known hkeys n
  by_cases hn : n ∈ knownNames
  · have := h.mpr hn
    cases hf : Use.find n <;> simp_all
  · have : ¬ (Use.find n).isSome = true := fun hc => hn (h.mp hc)
    cases hf : Use.find n <;> simp_all

theorem firstUnknown_of_exists {l : List String} (h : ∃ n ∈ l, n ∉ knownNames) :
    ∃ u, firstUnknown l = some u ∧ u ∈ l ∧ u ∉ knownNames := by
  obtain ⟨n, hn, hk⟩ := h
  cases hf : firstUnknown l with
  | none =>
    unfold firstUnknown at hf
    rw [List.find?_eq_none] at hf
    have := hf n hn
    simp [hk] at this
  | some u =>
    refine ⟨u, rfl, ?_, ?_⟩
    · exact List.mem_of_find?_eq_some hf
    · have := List.find?_some hf
      simpa using this

theorem firstUnknown_none_iff (l : List String) :
    firstUnknown l = none ↔ ∀ n ∈ l, n ∈ knownNames := by
  unfold firstUnknown
  rw [List.find?_eq_none]
  simp

/-- The outcome of the selection block on the source's table, by cases on the list. -/
theorem selectMethods_unknown (w : World) (myMethodList u : String)
    (hne : myMethodList ≠ "")
    (hu : firstUnknown (w.SplitString myMethodList ',') = some u) :
    selectMethods w defaultUse myMethodList = Except.error
      ([Event.cout ("Method \"" ++ u ++
          "\" not known in TMVA under this name. Choose among the following:\n")]
        ++ defaultUse.keys.map (fun k => Event.cout (k ++ " ")) ++ [Event.cout "\n"]) := by
  unfold selectMethods
  rw [if_pos hne]
  have hk : (UseMap.zeroAll defaultUse).keys = defaultUse.keys := UseMap.keys_zeroAll _
  rw [selectLoop_error _ _ u (by rw [firstUnknown_eq_find hk]; exact hu), hk]

theorem selectMethods_known (w : World) (Use : UseMap) (myMethodList : String)
    (hkeys : Use.keys = defaultUse.keys) (hne : myMethodList ≠ "")
    (hvalid : ∀ n ∈ w.SplitString myMethodList ',', n ∈ knownNames) :
    ∃ Use', selectMethods w Use myMethodList = Except.ok Use' ∧ Use'.keys = Use.keys ∧
      ∀ m ∈ knownNames,
        Use'.find m = some (if m ∈ w.SplitString myMethodList ',' then 1 else 0) := by
  have hk : (UseMap.zeroAll Use).keys = defaultUse.keys := by
    rw [UseMap.keys_zeroAll, hkeys]
  obtain ⟨Use', h1, h2, h3⟩ := selectLoop_ok (w.SplitString myMethodList ',') Use.zeroAll
    (fun n hn => (find_isSome_iff_known hk n).mpr (hvalid n hn))
  refine ⟨Use', ?_, ?_, ?_⟩
  · unfold selectMethods
    rw [if_pos hne]
    exact h1
  · rw [h2, UseMap.keys_zeroAll]
  · intro m hm
    rw [h3, UseMap.find_zeroAll]
    have hs := (find_isSome_iff_known hkeys m).mpr hm
    split_ifs
    · rfl
    · cases hf : Use.find m <;> simp_all

/-! ## Runs of `regression_test`, by cases -/

theorem regression_test_of_error {w : World} {myMethodList : String} {out : List Event}
    (h : selectMethods w defaultUse myMethodList = Except.error out) (outfileName : String) :
    regression_test w myMethodList outfileName = ⟨startEvents ++ out, Status.returned⟩ := by
  simp only [regression_test, h]

theorem regression_test_of_noInput {w : World} {myMethodList : String} {Use : UseMap}
    (h : selectMethods w defaultUse myMethodList = Except.ok Use)
    (hin : (openInput w).1 = none) (outfileName : String) :
    regression_test w myMethodList outfileName =
      ⟨startEvents ++ prepareEvents outfileName ++ (openInput w).2
          ++ [Event.cout "ERROR: could not open data file\n"], Status.exited 1⟩ := by
  simp only [regression_test, h, hin]

theorem regression_test_of_input {w : World} {myMethodList : String} {Use : UseMap}
    {inputName : String}
    (h : selectMethods w defaultUse myMethodList = Except.ok Use)
    (hin : (openInput w).1 = some inputName) (outfileName : String) :
    regression_test w myMethodList outfileName =
      ⟨startEvents ++ prepareEvents outfileName ++ (openInput w).2 ++ loadEvents inputName
          ++ bookMethods Use bookings ++ finishEvents w outfileName, Status.returned⟩ := by
  simp only [regression_test, h, hin]

theorem ne_empty_of_unknown {w : World} {myMethodList : String}
    (h0 : w.SplitString "" ',' = [])
    (hu : ∃ n ∈ w.SplitString myMethodList ',', n ∉ knownNames) : myMethodList ≠ "" := by
  intro hs
  subst hs
  rw [h0] at hu
  simp at hu

theorem validList_iff (w : World) (myMethodList : String) :
    w.validList myMethodList = true ↔
      (myMethodList = "" ∨ ∀ n ∈ w.SplitString myMethodList ',', n ∈ knownNames) := by
  simp [World.validList]

theorem defaultUse_flags :
    ∀ m ∈ knownNames, defaultUse.find m = some (if m = "MLP" then 1 else 0) := by
  decide

/-- A valid list passes the selection block, and the flags are those of `World.enabled`. -/
theorem selectMethods_of_valid {w : World} {myMethodList : String}
    (h : w.validList myMethodList = true) :
    ∃ Use, selectMethods w defaultUse myMethodList = Except.ok Use ∧
      Use.keys = defaultUse.keys ∧
      ∀ m ∈ knownNames, Use.find m = some (if w.enabled myMethodList m then 1 else 0) := by
  by_cases hs : myMethodList = ""
  · subst hs
    refine ⟨defaultUse, by simp [selectMethods], rfl, ?_⟩
    intro m hm
    rw [defaultUse_flags m hm]
    simp [World.enabled]
  · have hv : ∀ n ∈ w.SplitString myMethodList ',', n ∈ knownNames := by
      rcases (validList_iff w myMethodList).mp h with h1 | h1
      · exact absurd h1 hs
      · exact h1
    obtain ⟨Use, h1, h2, h3⟩ := selectMethods_known w defaultUse myMethodList rfl hs hv
    refine ⟨Use, h1, h2, ?_⟩
    intro m hm
    rw [h3 m hm]
    simp [World.enabled, hs]

/-- A list that is not valid is non-empty and has a first unknown name. -/
theorem selectMethods_of_invalid {w : World} {myMethodList : String}
    (h : w.validList myMethodList = false) :
    ∃ u, selectMethods w defaultUse myMethodList = Except.error
      ([Event.cout ("Method \"" ++ u ++
          "\" not known in TMVA under this name. Choose among the following:\n")]
        ++ defaultUse.keys.map (fun k => Event.cout (k ++ " ")) ++ [Event.cout "\n"]) := by
  have hn : ¬ (myMethodList = "" ∨ ∀ n ∈ w.SplitString myMethodList ',', n ∈ knownNames) := by
    rw [← validList_iff, h]
    simp
  have hne : myMethodList ≠ "" := fun hc => hn (Or.inl hc)
  have hex : ∃ n ∈ w.SplitString myMethodList ',', n ∉ knownNames := by
    by_contra hc
    apply hn
    right
    intro n hmem
    by_contra hk
    exact hc ⟨n, hmem, hk⟩
  obtain ⟨u, hu, _, _⟩ := firstUnknown_of_exists hex
  exact ⟨u, selectMethods_unknown w myMethodList u hne hu⟩

theorem openInput_of_available {w : World} (h : w.inputAvailable = true) :
    ∃ inputName, (openInput w).1 = some inputName := by
  simp only [World.inputAvailable, Bool.and_eq_true, Bool.not_eq_true'] at h
  obtain ⟨h1, h2⟩ := h
  cases ho : w.OpenInput fname with
  | none => rw [ho] at h2; simp at h2
  | some name => exact ⟨name, by simp [openInput, h1, ho]⟩

theorem openInput_of_absent {w : World} (h : w.inputAvailable = false) :
    (openInput w).1 = none := by
  unfold openInput
  cases ha : w.AccessPathName fname
  · cases ho : w.OpenInput fname with
    | none => simp
    | some name => simp [World.inputAvailable, ha, ho] at h
  · simp

/-- Every event of the booking section is a `BookMethod` call. -/
theorem bookMethods_all_book : ∀ (bs : List Booking) (Use : UseMap),
    ∀ e ∈ bookMethods Use bs, ∃ type title options, e = Event.bookMethod type title options
  | [], _ => by simp [bookMethods]
  | b :: rest, Use => by
    intro e he
    simp only [bookMethods] at he
    split_ifs at he
    · rcases List.mem_cons.mp he with h | h
      · exact ⟨_, _, _, h⟩
      · exact bookMethods_all_book rest _ e h
    · exact bookMethods_all_book rest _ e he

/-- The booking section on a table that holds every key it reads: the statements whose flag
is non-zero book, in order, and the table is left as it was. -/
theorem bookMethods_eq : ∀ (bs : List Booking) (Use : UseMap),
    (∀ b ∈ bs, (Use.find b.key).isSome = true) →
    bookMethods Use bs =
      (bs.filter (fun b => decide (Use.find b.key ≠ some 0))).map Booking.event
  | [], _ => fun _ => rfl
  | b :: rest, Use => fun h => by
    have hb := h b (List.mem_cons_self _ _)
    obtain ⟨v, hv⟩ := Option.isSome_iff_exists.mp hb
    have ih := bookMethods_eq rest Use (fun b hb => h b (List.mem_cons_of_mem _ hb))
    simp only [bookMethods, UseMap.index_of_find hv, List.filter_cons, hv]
    by_cases hz : v = 0
    · simp [hz, ih]
    · simp [hz, ih]

theorem bookings_keys_known : ∀ b ∈ bookings, b.key ∈ knownNames := by
  decide

/-- The booking section after a valid selection. -/
theorem bookMethods_of_flags {Use : UseMap} {en : String → Bool}
    (hkeys : Use.keys = defaultUse.keys)
    (hflags : ∀ m ∈ knownNames, Use.find m = some (if en m then 1 else 0)) :
    bookMethods Use bookings = (bookings.filter (fun b => en b.key)).map Booking.event := by
  rw [bookMethods_eq bookings Use
    (fun b hb => (find_isSome_iff_known hkeys b.key).mpr (bookings_keys_known b hb))]
  congr 1
  apply List.filter_congr
  intro b hb
  rw [hflags b.key (bookings_keys_known b hb)]
  cases en b.key <;> simp

theorem filter_bookMethods_self (p : Event → Bool)
    (hp : ∀ type title options, p (Event.bookMethod type title options) = true)
    (Use : UseMap) (bs : List Booking) :
    (bookMethods Use bs).filter p = bookMethods Use bs := by
  rw [List.filter_eq_self]
  intro e he
  obtain ⟨type, title, options, h⟩ := bookMethods_all_book bs Use e he
  rw [h]
  exact hp _ _ _

/-! ## Observations on the parts of a trace -/

theorem milestones_append (a b : List Event) :
    milestones (a ++ b) = milestones a ++ milestones b := by
  simp [milestones]

theorem bookCalls_append (a b : List Event) :
    bookCalls (a ++ b) = bookCalls a ++ bookCalls b := by
  simp [bookCalls]

theorem registrations_append (a b : List Event) :
    registrations (a ++ b) = registrations a ++ registrations b := by
  simp [registrations]

theorem milestones_openInput (w : World) : milestones (openInput w).2 = [] := by
  unfold openInput
  split_ifs <;> rfl

theorem bookCalls_openInput (w : World) : bookCalls (openInput w).2 = [] := by
  unfold openInput
  split_ifs <;> rfl

theorem registrations_openInput (w : World) : registrations (openInput w).2 = [] := by
  unfold openInput
  split_ifs <;> rfl

theorem recreate_openInput (w : World) : (openInput w).2.filter Event.isRecreate = [] := by
  unfold openInput
  split_ifs <;> rfl

theorem milestones_prepareEvents (outfileName : String) :
    milestones (prepareEvents outfileName) = [Event.tfileOpen outfileName "RECREATE"] := by
  simp [milestones, prepareEvents, Event.isMilestone]

theorem bookCalls_prepareEvents (outfileName : String) :
    bookCalls (prepareEvents outfileName) = [] := by
  simp [bookCalls, prepareEvents, Event.isBookMethod]

theorem registrations_prepareEvents (outfileName : String) :
    registrations (prepareEvents outfileName) = registeredFields := by
  simp [registrations, prepareEvents, Event.registration, registeredFields]

theorem recreate_prepareEvents (outfileName : String) :
    (prepareEvents outfileName).filter Event.isRecreate =
      [Event.tfileOpen outfileName "RECREATE"] := by
  simp [prepareEvents, Event.isRecreate]

theorem milestones_loadEvents (inputName : String) : milestones (loadEvents inputName) = [] := by
  simp [milestones, loadEvents, Event.isMilestone]

theorem bookCalls_loadEvents (inputName : String) : bookCalls (loadEvents inputName) = [] := by
  simp [bookCalls, loadEvents, Event.isBookMethod]

theorem registrations_loadEvents (inputName : String) :
    registrations (loadEvents inputName) = [] := by
  simp [registrations, loadEvents, Event.registration]

theorem milestones_finishEvents (w : World) (outfileName : String) :
    milestones (finishEvents w outfileName) =
      [Event.trainAllMethods, Event.testAllMethods, Event.evaluateAllMethods,
        Event.closeOutput] := by
  cases hb : w.IsBatch <;> simp [milestones, finishEvents, Event.isMilestone, hb]

theorem bookCalls_finishEvents (w : World) (outfileName : String) :
    bookCalls (finishEvents w outfileName) = [] := by
  cases hb : w.IsBatch <;> simp [bookCalls, finishEvents, Event.isBookMethod, hb]

theorem registrations_finishEvents (w : World) (outfileName : String) :
    registrations (finishEvents w outfileName) = [] := by
  cases hb : w.IsBatch <;> simp [registrations, finishEvents, Event.registration, hb]

theorem milestones_bookMethods (Use : UseMap) (bs : List Booking) :
    milestones (bookMethods Use bs) = bookMethods Use bs :=
  filter_bookMethods_self Event.isMilestone (fun _ _ _ => rfl) Use bs

theorem bookCalls_bookMethods (Use : UseMap) (bs : List Booking) :
    bookCalls (bookMethods Use bs) = bookMethods Use bs :=
  filter_bookMethods_self Event.isBookMethod (fun _ _ _ => rfl) Use bs

theorem registrations_bookMethods (Use : UseMap) (bs : List Booking) :
    registrations (bookMethods Use bs) = [] := by
  unfold registrations
  rw [List.filterMap_eq_nil_iff]
  intro e he
  obtain ⟨type, title, options, h⟩ := bookMethods_all_book bs Use e he
  rw [h]
  rfl

/-- The messages of the unknown-name branch register no field. -/
theorem registrations_unknown (u : String) :
    registrations (startEvents ++ ([Event.cout ("Method \"" ++ u ++
        "\" not known in TMVA under this name. Choose among the following:\n")]
        ++ defaultUse.keys.map (fun k => Event.cout (k ++ " ")) ++ [Event.cout "\n"])) = [] := by
  rw [defaultUse_keys]
  rfl

/-- The messages of the unknown-name branch open no file. -/
theorem recreate_unknown (u : String) :
    (startEvents ++ ([Event.cout ("Method \"" ++ u ++
        "\" not known in TMVA under this name. Choose among the following:\n")]
        ++ defaultUse.keys.map (fun k => Event.cout (k ++ " ")) ++ [Event.cout "\n"])).filter
      Event.isRecreate = [] := by
  rw [defaultUse_keys]
  rfl

/-- The `BookMethod` calls of a run with a valid list and the input file available. -/
theorem bookCalls_of_valid {w : World} {myMethodList : String}
    (hvalid : w.validList myMethodList = true) (hin : w.inputAvailable = true)
    (outfileName : String) :
    bookCalls (regression_test w myMethodList outfileName).trace =
      (bookings.filter (fun b => w.enabled myMethodList b.key)).map Booking.event := by
  obtain ⟨Use, h1, h2, h3⟩ := selectMethods_of_valid hvalid
  obtain ⟨inputName, hi⟩ := openInput_of_available hin
  rw [regression_test_of_input h1 hi]
  simp only [bookCalls_append, bookCalls_prepareEvents, bookCalls_openInput,
    bookCalls_loadEvents, bookCalls_finishEvents, bookCalls_bookMethods,
    List.append_nil, List.nil_append]
  rw [show bookCalls startEvents = [] from rfl, List.nil_append]
  exact bookMethods_of_flags h2 h3

/-! ## The argument loop of `main` -/

theorem isBatchFlag_iff (a : String) : isBatchFlag a = true ↔ (a = "-b" ∨ a = "--batch") := by
  simp [isBatchFlag]

theorem buildMethodList_filter : ∀ (l : List String) (methodList : String),
    buildMethodList methodList (l.filter (fun a => !isBatchFlag a)) =
      buildMethodList methodList l
  | [], _ => rfl
  | a :: rest, methodList => by
    by_cases ha : a = "-b" ∨ a = "--batch"
    · have hb : isBatchFlag a = true := (isBatchFlag_iff a).mpr ha
      simp only [List.filter_cons, hb, Bool.not_true, buildMethodList, if_pos ha]
      exact buildMethodList_filter rest methodList
    · have hb : isBatchFlag a = false := by
        cases h : isBatchFlag a
        · rfl
        · exact absurd ((isBatchFlag_iff a).mp h) ha
      simp only [List.filter_cons, hb, Bool.not_false, buildMethodList, if_neg ha, if_true]
      exact buildMethodList_filter rest _

theorem buildMethodList_flags : ∀ (l : List String) (methodList : String),
    l.all isBatchFlag = true → buildMethodList methodList l = methodList
  | [], _ => fun _ => rfl
  | a :: rest, methodList => fun h => by
    simp only [List.all_cons, Bool.and_eq_true] at h
    simp only [buildMethodList, if_pos ((isBatchFlag_iff a).mp h.1)]
    exact buildMethodList_flags rest methodList h.2

theorem drop_dropBatchFlags (argv : List String) :
    (dropBatchFlags argv).drop 1 = (argv.drop 1).filter (fun a => !isBatchFlag a) := by
  cases argv with
  | nil => rfl
  | cons a rest => simp [dropBatchFlags]

theorem methodListOf_dropBatchFlags (argv : List String) :
    methodListOf (dropBatchFlags argv) = methodListOf argv := by
  unfold methodListOf
  rw [drop_dropBatchFlags, buildMethodList_filter]

/-! ## The claims -/

/-- C1: for every non-empty method list whose split yields only known names, the selection
block ends with `Use[m] = 1` exactly for the known names `m` in the list and `Use[m] = 0` for
every other known name, whatever flags the table held before (any table with the eight keys). -/
theorem selection_sets_exactly_listed (w : World) (Use : UseMap) (myMethodList : String)
    (hkeys : Use.keys = defaultUse.keys)
    (hne : myMethodList ≠ "")
    (hvalid : ∀ n ∈ w.SplitString myMethodList ',', n ∈ knownNames) :
    ∃ Use', selectMethods w Use myMethodList = Except.ok Use' ∧
      Use'.keys = Use.keys ∧
      ∀ m ∈ knownNames,
        Use'.find m = some (if m ∈ w.SplitString myMethodList ',' then 1 else 0) :=
  selectMethods_known w Use myMethodList hkeys hne hvalid

/-- C1, at the list `"LD"` on the source's table: `LD` ends at 1 and the default-enabled
`MLP` at 0. -/
theorem selection_sets_exactly_listed_witness :
    defaultUse.find "MLP" = some 1 ∧
    ∃ Use', selectMethods worldWithInput defaultUse "LD" = Except.ok Use' ∧
      Use'.keys = defaultUse.keys ∧
      ∀ m ∈ knownNames,
        Use'.find m = some (if m ∈ worldWithInput.SplitString "LD" ',' then 1 else 0) :=
  ⟨by decide,
   selection_sets_exactly_listed worldWithInput defaultUse "LD" rfl (by decide) (by decide)⟩

/-- C2: when the split of the method list contains a name outside the eight known ones,
`regression_test` returns (it does not call `exit`) after printing the valid names, and its
trace holds nothing but the library load and console output: no file is opened, no method is
booked, and train, test and evaluate are not called.  The splitter is assumed to yield no name
for the empty string. -/
theorem unknown_method_returns_without_work (w : World) (myMethodList outfileName : String)
    (h0 : w.SplitString "" ',' = [])
    (hu : ∃ n ∈ w.SplitString myMethodList ',', n ∉ knownNames) :
    (regression_test w myMethodList outfileName).status = Status.returned ∧
    (∀ e ∈ (regression_test w myMethodList outfileName).trace,
      e = Event.toolsInstance ∨ ∃ text, e = Event.cout text) ∧
    (∃ pre, (regression_test w myMethodList outfileName).trace =
      pre ++ ["BDT", "BDTG", "DNN_CPU", "KNN", "LD", "MLP", "PDEFoam", "PDERS"].map
        (fun k => Event.cout (k ++ " ")) ++ [Event.cout "\n"]) ∧
    (∀ name option,
      Event.tfileOpen name option ∉ (regression_test w myMethodList outfileName).trace) ∧
    (∀ type title options,
      Event.bookMethod type title options ∉
        (regression_test w myMethodList outfileName).trace) ∧
    Event.trainAllMethods ∉ (regression_test w myMethodList outfileName).trace ∧
    Event.testAllMethods ∉ (regression_test w myMethodList outfileName).trace ∧
    Event.evaluateAllMethods ∉ (regression_test w myMethodList outfileName).trace := by
  have hne := ne_empty_of_unknown h0 hu
  obtain ⟨u, hfu, _, _⟩ := firstUnknown_of_exists hu
  rw [regression_test_of_error (selectMethods_unknown w myMethodList u hne hfu) outfileName]
  have hall : ∀ e ∈ startEvents ++ ([Event.cout ("Method \"" ++ u ++
        "\" not known in TMVA under this name. Choose among the following:\n")]
        ++ defaultUse.keys.map (fun k => Event.cout (k ++ " ")) ++ [Event.cout "\n"]),
      e = Event.toolsInstance ∨ ∃ text, e = Event.cout text := by
    intro e he
    simp only [startEvents, List.mem_append, List.mem_cons, List.mem_singleton,
      List.not_mem_nil, or_false, List.mem_map] at he
    rcases he with (h | h | h) | (h | ⟨k, _, h⟩) | h
    · exact Or.inl h
    · exact Or.inr ⟨_, h⟩
    · exact Or.inr ⟨_, h⟩
    · exact Or.inr ⟨_, h⟩
    · exact Or.inr ⟨_, h.symm⟩
    · exact Or.inr ⟨_, h⟩
  refine ⟨rfl, hall, ⟨startEvents ++ [Event.cout ("Method \"" ++ u ++
        "\" not known in TMVA under this name. Choose among the following:\n")], ?_⟩,
    ?_, ?_, ?_, ?_, ?_⟩
  · rw [defaultUse_keys]
    simp only [List.append_assoc]
  · intro name option hc
    rcases hall _ hc with h | ⟨_, h⟩ <;> cases h
  · intro type title options hc
    rcases hall _ hc with h | ⟨_, h⟩ <;> cases h
  · intro hc
    rcases hall _ hc with h | ⟨_, h⟩ <;> cases h
  · intro hc
    rcases hall _ hc with h | ⟨_, h⟩ <;> cases h
  · intro hc
    rcases hall _ hc with h | ⟨_, h⟩ <;> cases h

/-- C2, at the list `"MLP,Foo"`: a valid name precedes the unknown one. -/
theorem unknown_method_returns_without_work_witness :
    (worldWithInput.SplitString "" ',' = []) ∧
    (∃ n ∈ worldWithInput.SplitString "MLP,Foo" ',', n ∉ knownNames) ∧
    (regression_test worldWithInput "MLP,Foo").status = Status.returned ∧
    (∀ name option,
      Event.tfileOpen name option ∉ (regression_test worldWithInput "MLP,Foo").trace) :=
  have h := unknown_method_returns_without_work worldWithInput "MLP,Foo" "TMVAReg_outtest.root"
    (by decide) (by decide)
  ⟨by decide, by decide, h.1, h.2.2.2.1⟩

/-- C7: when the split of the method list contains an unknown name, the run prints the start
banner, the message naming the FIRST unknown name of the list, and then the eight known names
in ascending order, each followed by one blank, whatever valid names came before it.  The
splitter is assumed to yield no name for the empty string. -/
theorem unknown_message_names_first_and_lists_known (w : World)
    (myMethodList outfileName u : String)
    (h0 : w.SplitString "" ',' = [])
    (hu : firstUnknown (w.SplitString myMethodList ',') = some u) :
    (regression_test w myMethodList outfileName).trace =
      [ Event.toolsInstance, Event.cout "\n", Event.cout "==> Start TMVARegression\n",
        Event.cout ("Method \"" ++ u ++
          "\" not known in TMVA under this name. Choose among the following:\n"),
        Event.cout "BDT ", Event.cout "BDTG ", Event.cout "DNN_CPU ", Event.cout "KNN ",
        Event.cout "LD ", Event.cout "MLP ", Event.cout "PDEFoam ", Event.cout "PDERS ",
        Event.cout "\n" ] ∧
    stdout (regression_test w myMethodList outfileName).trace =
      "\n==> Start TMVARegression\nMethod \"" ++ u ++
        "\" not known in TMVA under this name. Choose among the following:\nBDT BDTG DNN_CPU KNN LD MLP PDEFoam PDERS \n" := by
  have hne : myMethodList ≠ "" := by
    intro hs
    subst hs
    rw [h0] at hu
    simp [firstUnknown] at hu
  rw [regression_test_of_error (selectMethods_unknown w myMethodList u hne hu) outfileName]
  rw [defaultUse_keys]
  refine ⟨rfl, ?_⟩
  simp only [startEvents, List.cons_append, List.nil_append, List.map_cons, List.map_nil,
    stdout]
  simp only [String.append_assoc]
  rfl

/-- C7, at the list `"MLP,Foo,Bar"`: the message names `Foo`. -/
theorem unknown_message_names_first_and_lists_known_witness :
    (worldWithInput.SplitString "" ',' = []) ∧
    firstUnknown (worldWithInput.SplitString "MLP,Foo,Bar" ',') = some "Foo" ∧
    stdout (regression_test worldWithInput "MLP,Foo,Bar").trace =
      "\n==> Start TMVARegression\nMethod \"" ++ "Foo" ++
        "\" not known in TMVA under this name. Choose among the following:\nBDT BDTG DNN_CPU KNN LD MLP PDEFoam PDERS \n" :=
  ⟨by decide, by decide,
   (unknown_message_names_first_and_lists_known worldWithInput "MLP,Foo,Bar"
      "TMVAReg_outtest.root" "Foo" (by decide) (by decide)).2⟩

/-- C3 as stated fails: with no arguments and `./rfq_b.root` absent, the output file
`TMVAReg_outtest.root` is opened in `RECREATE` mode before the input file is looked for. -/
theorem output_recreated_although_input_absent :
    worldNoInput.inputAvailable = false ∧
    Event.tfileOpen "TMVAReg_outtest.root" "RECREATE" ∈
      (regression_test worldNoInput "").trace ∧
    (regression_test worldNoInput "").status = Status.exited 1 := by
  decide

/-- C3, amended: when the input file is absent or cannot be opened, the output file is left
untouched only on the runs stopped by an unknown method name; on every run with a valid list
(empty, or known names only) the output file is opened in `RECREATE` mode exactly once, and
the run then ends in `exit(1)` without closing it. -/
theorem output_open_when_input_absent (w : World) (myMethodList outfileName : String)
    (habs : w.inputAvailable = false) :
    (regression_test w myMethodList outfileName).trace.filter Event.isRecreate =
      (if w.validList myMethodList then [Event.tfileOpen outfileName "RECREATE"] else []) ∧
    (regression_test w myMethodList outfileName).status =
      (if w.validList myMethodList then Status.exited 1 else Status.returned) ∧
    Event.closeOutput ∉ (regression_test w myMethodList outfileName).trace := by
  cases hv : w.validList myMethodList
  · obtain ⟨u, hu⟩ := selectMethods_of_invalid hv
    rw [regression_test_of_error hu]
    refine ⟨recreate_unknown u, rfl, ?_⟩
    rw [defaultUse_keys]
    simp [startEvents]
  · obtain ⟨Use, h1, _, _⟩ := selectMethods_of_valid hv
    rw [regression_test_of_noInput h1 (openInput_of_absent habs)]
    refine ⟨?_, rfl, ?_⟩
    · simp only [List.filter_append, recreate_prepareEvents, recreate_openInput,
        List.append_nil, if_true]
      rfl
    · simp only [List.mem_append, not_or]
      refine ⟨⟨⟨by decide, by simp [prepareEvents]⟩, ?_⟩, by simp⟩
      unfold openInput
      split_ifs <;> simp

/-- C3 amended, at the default run without the input file. -/
theorem output_open_when_input_absent_witness :
    worldNoInput.inputAvailable = false ∧
    (regression_test worldNoInput "").trace.filter Event.isRecreate =
      [Event.tfileOpen "TMVAReg_outtest.root" "RECREATE"] :=
  ⟨by decide,
   (output_open_when_input_absent worldNoInput "" "TMVAReg_outtest.root" (by decide)).1⟩

/-- C4 as stated fails: with the input file absent and an unknown method name on the
command line, the process ends with status 0 and the error message is not printed. -/
theorem status_zero_although_input_absent :
    worldNoInput.inputAvailable = false ∧
    (main worldNoInput ["regression_2dscan_tor", "Foo"]).2 = 0 ∧
    Event.cout "ERROR: could not open data file\n" ∉
      (main worldNoInput ["regression_2dscan_tor", "Foo"]).1.trace := by
  decide

/-- C4, amended: the process exits with status 1, the message
`ERROR: could not open data file` being the last thing it printed, exactly when the method
list is valid (empty, or known names only) and the input file is absent or cannot be opened;
in every other case, an unknown method name included, `regression_test` returns and the
status is 0. -/
theorem exit_status_of_main (w : World) (argv : List String) :
    ((main w argv).2 = 1 ↔
      (w.validList (methodListOf argv) = true ∧ w.inputAvailable = false)) ∧
    ((main w argv).2 = 0 ↔
      ¬ (w.validList (methodListOf argv) = true ∧ w.inputAvailable = false)) ∧
    ((main w argv).2 = 1 →
      (main w argv).1.status = Status.exited 1 ∧
      ∃ pre, (main w argv).1.trace = pre ++ [Event.cout "ERROR: could not open data file\n"]) ∧
    ((main w argv).2 = 0 → (main w argv).1.status = Status.returned) := by
  have key : (w.validList (methodListOf argv) = true ∧ w.inputAvailable = false →
        (main w argv).2 = 1 ∧ (main w argv).1.status = Status.exited 1 ∧
        ∃ pre, (main w argv).1.trace =
          pre ++ [Event.cout "ERROR: could not open data file\n"]) ∧
      (¬ (w.validList (methodListOf argv) = true ∧ w.inputAvailable = false) →
        (main w argv).2 = 0 ∧ (main w argv).1.status = Status.returned) := by
    constructor
    · rintro ⟨hv, habs⟩
      obtain ⟨Use, h1, _, _⟩ := selectMethods_of_valid hv
      have hr := regression_test_of_noInput h1 (openInput_of_absent habs) "TMVAReg_outtest.root"
      have hm : main w argv = (⟨startEvents ++ prepareEvents "TMVAReg_outtest.root"
          ++ (openInput w).2 ++ [Event.cout "ERROR: could not open data file\n"],
          Status.exited 1⟩, 1) := by
        simp only [main, hr]
      rw [hm]
      exact ⟨rfl, rfl, _, rfl⟩
    · intro hn
      cases hv : w.validList (methodListOf argv)
      · obtain ⟨u, hu⟩ := selectMethods_of_invalid hv
        have hr := regression_test_of_error hu "TMVAReg_outtest.root"
        have hm : (main w argv).2 = 0 ∧ (main w argv).1.status = Status.returned := by
          simp only [main, hr]
          exact ⟨trivial, trivial⟩
        exact hm
      · have hin : w.inputAvailable = true := by
          cases hi : w.inputAvailable
          · exact absurd ⟨hv, hi⟩ hn
          · rfl
        obtain ⟨Use, h1, _, _⟩ := selectMethods_of_valid hv
        obtain ⟨inputName, hi⟩ := openInput_of_available hin
        have hr := regression_test_of_input h1 hi "TMVAReg_outtest.root"
        have hm : (main w argv).2 = 0 ∧ (main w argv).1.status = Status.returned := by
          simp only [main, hr]
          exact ⟨trivial, trivial⟩
        exact hm
  by_cases hc : w.validList (methodListOf argv) = true ∧ w.inputAvailable = false
  · obtain ⟨h1, h2, h3⟩ := key.1 hc
    refine ⟨⟨fun _ => hc, fun _ => h1⟩, ⟨fun h0 => ?_, fun hn => absurd hc hn⟩,
      fun _ => ⟨h2, h3⟩, fun h0 => ?_⟩
    · rw [h1] at h0; exact absurd h0 (by decide)
    · rw [h1] at h0; exact absurd h0 (by decide)
  · obtain ⟨h1, h2⟩ := key.2 hc
    refine ⟨⟨fun h0 => ?_, fun h => absurd h hc⟩, ⟨fun _ => hc, fun _ => h1⟩,
      fun h0 => ?_, fun _ => h2⟩
    · rw [h1] at h0; exact absurd h0 (by decide)
    · rw [h1] at h0; exact absurd h0 (by decide)

/-- C5: `main` run with no argument passes the empty method list; the selection block then
leaves the hardcoded table as it is, in which `MLP` has flag 1 and the seven other methods
flag 0; the only method booked is `MLP` (booked once the input file is open). -/
theorem no_argument_selects_mlp_only (w : World) (prog : String) :
    methodListOf [] = "" ∧ methodListOf [prog] = "" ∧
    selectMethods w defaultUse "" = Except.ok defaultUse ∧
    (∀ m ∈ knownNames, defaultUse.find m = some (if m = "MLP" then 1 else 0)) ∧
    bookCalls (main w [prog]).1.trace = (if w.inputAvailable then [bookMLP] else []) := by
  refine ⟨rfl, rfl, by simp [selectMethods], defaultUse_flags, ?_⟩
  have hv : w.validList "" = true := by simp [World.validList]
  have hm : (main w [prog]).1 = regression_test w "" := by
    simp only [main]
    split <;> rfl
  rw [hm]
  cases hin : w.inputAvailable
  · obtain ⟨Use, h1, _, _⟩ := selectMethods_of_valid hv
    rw [regression_test_of_noInput h1 (openInput_of_absent hin)]
    simp only [bookCalls_append, bookCalls_prepareEvents, bookCalls_openInput,
      List.append_nil]
    rfl
  · rw [bookCalls_of_valid hv hin]
    simp only [World.enabled, if_true]
    rfl

/-- C6: the method list `main` builds from an argument vector is the one it builds from the
vector with every `-b` and `--batch` argument removed, wherever they stand, so both runs are
the same; and arguments that are all `-b`/`--batch` give the empty list, on which the
selection block keeps the hardcoded default table. -/
theorem batch_flags_are_filtered (w : World) (argv : List String) :
    methodListOf argv = methodListOf (dropBatchFlags argv) ∧
    main w argv = main w (dropBatchFlags argv) ∧
    ((argv.drop 1).all isBatchFlag = true →
      methodListOf argv = "" ∧
      selectMethods w defaultUse (methodListOf argv) = Except.ok defaultUse) := by
  refine ⟨(methodListOf_dropBatchFlags argv).symm, ?_, ?_⟩
  · simp only [main, methodListOf_dropBatchFlags]
  · intro h
    have h1 : methodListOf argv = "" := buildMethodList_flags _ _ h
    rw [h1]
    exact ⟨rfl, by simp [selectMethods]⟩

/-- C6, at a command line with flags before, between and after the method names, and at one
made of flags only. -/
theorem batch_flags_are_filtered_witness :
    methodListOf ["prog", "-b", "LD", "--batch", "MLP", "-b"] = "LD,MLP" ∧
    methodListOf ["prog", "-b", "LD", "--batch", "MLP", "-b"] = methodListOf ["prog", "LD", "MLP"] ∧
    methodListOf ["prog", "-b", "--batch"] = "" :=
  ⟨by decide,
   (batch_flags_are_filtered worldWithInput ["prog", "-b", "LD", "--batch", "MLP", "-b"]).1,
   ((batch_flags_are_filtered worldWithInput ["prog", "-b", "--batch"]).2.2 (by decide)).1⟩

/-- C8 as stated fails: the default run registers the spectator field `RFQPAH_S`, which is
not one of the five fields of the specification. -/
theorem spectator_field_outside_spec_fields :
    (Role.spectator, "RFQPAH_S") ∈ registrations (regression_test worldWithInput "").trace ∧
    "RFQPAH_S" ∉ specFields := by
  decide

/-- C8, amended: every run that passes the selection block registers exactly seven fields,
each once: `RFQPAH_R`, `RFBPAH_R` as input variables, `RFQPAH_S`, `RFBPAH_S` as spectators and
`TO1IN_R`, `D7TOR_R`, `TO3IN_R` as targets; the five fields of the specification are
registered exactly once each, and the two spectators are the only others.  A run stopped by
an unknown method name registers none. -/
theorem registered_fields_exact (w : World) (myMethodList outfileName : String) :
    registrations (regression_test w myMethodList outfileName).trace =
      (if w.validList myMethodList then
        [ (Role.inputVariable, "RFQPAH_R"), (Role.inputVariable, "RFBPAH_R"),
          (Role.spectator, "RFQPAH_S"), (Role.spectator, "RFBPAH_S"),
          (Role.target, "TO1IN_R"), (Role.target, "D7TOR_R"), (Role.target, "TO3IN_R") ]
      else []) ∧
    (∀ f ∈ specFields, (registeredFields.map Prod.snd).count f = 1) ∧
    (∀ f ∈ registeredFields.map Prod.snd, f ∈ specFields ∨ f = "RFQPAH_S" ∨ f = "RFBPAH_S") := by
  refine ⟨?_, by decide, by decide⟩
  cases hv : w.validList myMethodList
  · obtain ⟨u, hu⟩ := selectMethods_of_invalid hv
    rw [regression_test_of_error hu]
    exact registrations_unknown u
  · obtain ⟨Use, h1, _, _⟩ := selectMethods_of_valid hv
    have hs : registrations startEvents = [] := rfl
    cases hin : (openInput w).1 with
    | none =>
      rw [regression_test_of_noInput h1 hin]
      simp only [registrations_append, registrations_prepareEvents, registrations_openInput,
        hs, List.append_nil, List.nil_append, if_true]
      rfl
    | some inputName =>
      rw [regression_test_of_input h1 hin]
      simp only [registrations_append, registrations_prepareEvents, registrations_openInput,
        registrations_loadEvents, registrations_bookMethods, registrations_finishEvents,
        hs, List.append_nil, List.nil_append, if_true]
      rfl

/-- C9: with the input file available, a valid list makes `regression_test` book exactly the
enabled methods, each once, under a title equal to its selector name and with its fixed
option string, in the fixed order PDERS, PDEFoam, KNN, LD, MLP, DNN_CPU, BDT, BDTG; so two
valid lists that enable the same methods give the same sequence of bookings. -/
theorem bookings_in_fixed_order (w : World) (myMethodList otherList outfileName : String)
    (hin : w.inputAvailable = true)
    (hvalid : w.validList myMethodList = true)
    (hother : w.validList otherList = true)
    (hsame : ∀ m, w.enabled otherList m = w.enabled myMethodList m) :
    bookCalls (regression_test w myMethodList outfileName).trace =
      (bookings.filter (fun b => w.enabled myMethodList b.key)).map
        (fun b => Event.bookMethod b.type b.title b.options) ∧
    bookCalls (regression_test w otherList outfileName).trace =
      bookCalls (regression_test w myMethodList outfileName).trace ∧
    bookings.map Booking.key = knownNames ∧
    (∀ b ∈ bookings, b.title = b.key) := by
  refine ⟨bookCalls_of_valid hvalid hin outfileName, ?_, by decide, by decide⟩
  rw [bookCalls_of_valid hvalid hin, bookCalls_of_valid hother hin]
  congr 1
  apply List.filter_congr
  intro b _
  exact hsame b.key

set_option maxRecDepth 8000 in
/-- C9, at the lists `"LD,MLP"` and `"MLP,LD,MLP"`: both book `LD` and then `MLP`. -/
theorem bookings_in_fixed_order_witness :
    worldWithInput.inputAvailable = true ∧
    worldWithInput.validList "LD,MLP" = true ∧
    worldWithInput.validList "MLP,LD,MLP" = true ∧
    bookCalls (regression_test worldWithInput "MLP,LD,MLP").trace =
      bookCalls (regression_test worldWithInput "LD,MLP").trace ∧
    bookCalls (regression_test worldWithInput "LD,MLP").trace =
      [Event.bookMethod EMVA.kLD "LD" "!H:!V:VarTransform=None", bookMLP] :=
  ⟨by decide, by decide, by decide,
   (bookings_in_fixed_order worldWithInput "LD,MLP" "MLP,LD,MLP" "TMVAReg_outtest.root"
      (by decide) (by decide) (by decide)
      (by
        intro m
        have e1 : SplitString "MLP,LD,MLP" ',' = ["MLP", "LD", "MLP"] := by decide
        have e2 : SplitString "LD,MLP" ',' = ["LD", "MLP"] := by decide
        have n1 : ¬ ("MLP,LD,MLP" = "") := by decide
        have n2 : ¬ ("LD,MLP" = "") := by decide
        simp only [World.enabled, worldWithInput, e1, e2, if_neg n1, if_neg n2,
          List.mem_cons, List.mem_singleton, List.not_mem_nil, or_false, decide_eq_decide]
        tauto)).2.1,
   by decide⟩

/-- C10: with a valid list and the input file available, `regression_test` returns, and the
phase-marking calls of its trace are, in this order: the opening of the output file, the
`BookMethod` calls, then `TrainAllMethods`, `TestAllMethods`, `EvaluateAllMethods` and the
closing of the output file, once each. -/
theorem phases_in_order (w : World) (myMethodList outfileName : String)
    (hvalid : w.validList myMethodList = true)
    (hin : w.inputAvailable = true) :
    (regression_test w myMethodList outfileName).status = Status.returned ∧
    milestones (regression_test w myMethodList outfileName).trace =
      [Event.tfileOpen outfileName "RECREATE"]
        ++ bookCalls (regression_test w myMethodList outfileName).trace
        ++ [Event.trainAllMethods, Event.testAllMethods, Event.evaluateAllMethods,
            Event.closeOutput] := by
  obtain ⟨Use, h1, _, _⟩ := selectMethods_of_valid hvalid
  obtain ⟨inputName, hi⟩ := openInput_of_available hin
  rw [regression_test_of_input h1 hi]
  refine ⟨rfl, ?_⟩
  simp only [milestones_append, milestones_prepareEvents, milestones_openInput,
    milestones_loadEvents, milestones_finishEvents, milestones_bookMethods,
    bookCalls_append, bookCalls_prepareEvents, bookCalls_openInput,
    bookCalls_loadEvents, bookCalls_finishEvents, bookCalls_bookMethods,
    List.append_nil, List.nil_append]
  rw [show milestones startEvents = [] from rfl, show bookCalls startEvents = [] from rfl]
  simp

/-- C10, at the list `"BDT,LD"`. -/
theorem phases_in_order_witness :
    worldWithInput.validList "BDT,LD" = true ∧
    worldWithInput.inputAvailable = true ∧
    milestones (regression_test worldWithInput "BDT,LD").trace =
      [Event.tfileOpen "TMVAReg_outtest.root" "RECREATE"]
        ++ bookCalls (regression_test worldWithInput "BDT,LD").trace
        ++ [Event.trainAllMethods, Event.testAllMethods, Event.evaluateAllMethods,
            Event.closeOutput] :=
  ⟨by decide, by decide,
   (phases_in_order worldWithInput "BDT,LD" "TMVAReg_outtest.root"
      (by decide) (by decide)).2⟩

end LinacTuning
